import Mathlib

/-!
Verification of the market-snapshot cache and watchlist-notification loop
(`cache.py` / `server.py` of the buff_auto_notification package).

The embedding models Python values as a small inductive type `Value`,
Python dicts as insertion-ordered association lists with string keys,
the on-disk JSON store as an association list from filename to record,
and the two classes `MarketCache` and `BuffAutoNotificationServer`
as pure functions (wall-clock timestamps, the external search capability
and the notification sink are explicit parameters).
-/

namespace Buff

/-- Equality of `Except` results is decidable componentwise (used to evaluate
the embedding on concrete inputs). -/
instance {ε α : Type} [DecidableEq ε] [DecidableEq α] : DecidableEq (Except ε α) :=
  fun a b =>
    match a, b with
    | .error e, .error e' =>
      if h : e = e' then .isTrue (by rw [h]) else .isFalse (by simp [h])
    | .error _, .ok _ => .isFalse (by simp)
    | .ok _, .error _ => .isFalse (by simp)
    | .ok v, .ok v' =>
      if h : v = v' then .isTrue (by rw [h]) else .isFalse (by simp [h])

/-- A Python runtime error class, as far as the cache/server code distinguishes them. -/
inductive PyErr where
  | valueError
  | typeError
  | attributeError
  deriving DecidableEq, Repr

/-- A Python value as stored in the cached JSON dictionaries: `None`, a number
(ints and floats are modelled together as rationals), a string, or a boolean. -/
inductive Value where
  | vNone
  | vNum (q : ℚ)
  | vStr (s : String)
  | vBool (b : Bool)
  deriving DecidableEq, Repr

open Value

/-- Python truthiness for the modelled values: `None`, `0`, `""` and `False` are falsy. -/
def truthy : Value → Bool
  | vNone => false
  | vNum q => q != 0
  | vStr s => s != ""
  | vBool b => b

/-- Python `str()` of a modelled value (used for `str(unique_id)` in `_get_filename`). -/
def pyStr : Value → String
  | vNone => "None"
  | vNum q => if q.den == 1 then toString q.num else toString q
  | vStr s => s
  | vBool b => if b then "True" else "False"

/-- A Python dict with string keys: an insertion-ordered association list.
Python dicts never hold duplicate keys; where a proof needs that fact it is
an explicit `Nodup` hypothesis. -/
abbrev Dict := List (String × Value)

/-- `d.get(k)`: the value at the first occurrence of key `k`, if any. -/
def assocGet {α : Type} (d : List (String × α)) (k : String) : Option α :=
  match d with
  | [] => none
  | (k', v) :: tl => if k' = k then some v else assocGet tl k

/-- `d[k] = v`: replace the value at the first occurrence of `k`, or append
a new entry at the end — exactly Python's dict assignment on an ordered dict. -/
def assocSet {α : Type} (d : List (String × α)) (k : String) (v : α) :
    List (String × α) :=
  match d with
  | [] => [(k, v)]
  | (k', v') :: tl => if k' = k then (k', v) :: tl else (k', v') :: assocSet tl k v

/-- The key set of an association list. -/
def keysOf {α : Type} (d : List (String × α)) : List String := d.map Prod.fst

/-- Python `{**a, **b}` (as used by `load_cache` to merge static and snapshot):
insert every entry of `b` into `a` in order, later keys overriding. -/
def pyUpdate (a b : Dict) : Dict :=
  b.foldl (fun acc kv => assocSet acc kv.1 kv.2) a

/-- Stand-in for `hashlib.md5(name.encode('utf-8')).hexdigest()`; the claims use
the digest only symbolically (the record is keyed by `md5Hex name`), never any
arithmetic property of MD5 itself. -/
def md5Hex (s : String) : String := "md5:" ++ s

/-! ## Timestamps

`upsert_cache` writes snapshot keys with `datetime.now().isoformat()`, i.e.
`YYYY-MM-DDTHH:MM:SS.ffffff` (the fractional part is omitted when the
microsecond count is zero), and `load_cache` re-reads them with
`datetime.fromisoformat`.  `parseTs` models that parse for exactly this
canonical shape, mapping a timestamp to a linear count of microseconds on a
mixed-radix scale (order-isomorphic to chronological order). -/

/-- The numeric value of a decimal digit character (code points 48–57), when it is one. -/
def digit? (c : Char) : Option Nat :=
  if 48 ≤ c.toNat ∧ c.toNat ≤ 57 then some (c.toNat - 48) else none

/-- Value of a two-digit field. -/
def num2 (a b : Char) : Option Nat :=
  (digit? a).bind fun x => (digit? b).bind fun y => some (x * 10 + y)

/-- Value of a four-digit field. -/
def num4 (a b c d : Char) : Option Nat :=
  (num2 a b).bind fun x => (num2 c d).bind fun y => some (x * 100 + y)

/-- The fractional-seconds suffix: empty (0 microseconds) or `.ffffff`. -/
def parseFrac : List Char → Option Nat
  | [] => some 0
  | [dot, a, b, c, d, e, f] =>
    if dot = '.' then
      (num2 a b).bind fun x => (num2 c d).bind fun y => (num2 e f).bind fun z =>
        some ((x * 100 + y) * 100 + z)
    else none
  | _ => none

/-- Combine the seven validated datetime fields into one mixed-radix value
(microsecond granularity; each base strictly exceeds its field's range). -/
def tsVal (y mo d h mi se us : Nat) : Nat :=
  (((((y * 13 + mo) * 32 + d) * 24 + h) * 60 + mi) * 60 + se) * 1000000 + us

/-- `datetime.fromisoformat` on the character list of a canonical `isoformat()`
string `YYYY-MM-DDTHH:MM:SS[.ffffff]`, with the usual field-range validation;
any other shape is unparseable (`none` models the raised `ValueError`). -/
def parseTsL : List Char → Option Nat
  | y1 :: y2 :: y3 :: y4 :: sep1 :: mo1 :: mo2 :: sep2 :: d1 :: d2 :: sep3 ::
      h1 :: h2 :: sep4 :: mi1 :: mi2 :: sep5 :: s1 :: s2 :: rest =>
    if sep1 = '-' ∧ sep2 = '-' ∧ sep3 = 'T' ∧ sep4 = ':' ∧ sep5 = ':' then
      (num4 y1 y2 y3 y4).bind fun y =>
      (num2 mo1 mo2).bind fun mo =>
      (num2 d1 d2).bind fun d =>
      (num2 h1 h2).bind fun h =>
      (num2 mi1 mi2).bind fun mi =>
      (num2 s1 s2).bind fun se =>
      (parseFrac rest).bind fun us =>
      if 1 ≤ mo ∧ mo ≤ 12 ∧ 1 ≤ d ∧ d ≤ 31 ∧ h ≤ 23 ∧ mi ≤ 59 ∧ se ≤ 59 then
        some (tsVal y mo d h mi se us)
      else none
    else none
  | _ => none

/-- `datetime.fromisoformat` on a string. -/
def parseTs (s : String) : Option Nat := parseTsL s.data

/-- Python string comparison on character lists: lexicographic by code point. -/
def tsLe : List Char → List Char → Bool
  | [], _ => true
  | _ :: _, [] => false
  | a :: as, b :: bs =>
    if a.toNat < b.toNat then true
    else if b.toNat < a.toNat then false
    else tsLe as bs

/-- Python `s1 <= s2` on strings (used by `sorted(...)` over snapshot keys
and directory listings). -/
def strLe (a b : String) : Bool := tsLe a.data b.data

/-! ## The snapshot store (`MarketCache`) -/

/-- `self.static_keys` from `MarketCache.__init__`. -/
def static_keys : List String :=
  ["id", "appid", "game", "name", "market_hash_name",
   "steam_market_url", "goods_info", "short_name",
   "can_search_by_tournament", "description"]

/-- `self.dynamic_keys` from `MarketCache.__init__`. -/
def dynamic_keys : List String :=
  ["sell_reference_price", "sell_min_price", "buy_max_price",
   "sell_num", "buy_num", "transacted_num", "quick_price",
   "market_min_price", "can_bargain", "rent_unit_reference_price",
   "rent_num", "min_rent_unit_price", "min_security_price",
   "is_charm", "keychain_color_img", "auction_num",
   "pre_sell_num", "pre_sell_min_price", "bookmarked",
   "has_buff_price_history"]

/-- `MarketCache._get_filename`: the record's identity key — `str(id)` when `id`
is truthy, else the MD5 hex digest of a truthy `market_hash_name` (which raises
`AttributeError` on `.encode` when that name is not a string), else `ValueError`. -/
def getFilename (item : Dict) : Except PyErr String :=
  let uid := (assocGet item "id").getD vNone
  if truthy uid then .ok (pyStr uid)
  else
    let mh := (assocGet item "market_hash_name").getD vNone
    if truthy mh then
      match mh with
      | vStr s => .ok (md5Hex s)
      | _ => .error .attributeError
    else .error .valueError

/-- `static_part = {k: item.get(k) for k in self.static_keys if k in item}`. -/
def staticPart (item : Dict) : Dict :=
  static_keys.foldl
    (fun acc k => match assocGet item k with
      | some v => assocSet acc k v
      | none => acc) []

/-- `dynamic_snapshot = {key: item.get(key) for key in self.dynamic_keys if key in item}`. -/
def dynSnapshot (item : Dict) : Dict :=
  dynamic_keys.foldl
    (fun acc k => match assocGet item k with
      | some v => assocSet acc k v
      | none => acc) []

/-- The time-indexed snapshot map of a record. -/
abbrev SnapMap := List (String × Dict)

/-- One persisted JSON file: the unified `{static, snapshots}` shape, some other
valid JSON (`load_cache`/`upsert_cache` shape checks fail), or bytes that
`json.load` cannot decode at all. -/
inductive StoredJson where
  | unified (static : Dict) (snapshots : SnapMap)
  | nonUnified
  | corrupt
  deriving DecidableEq, Repr

/-- The json directory: filename (without extension) to file content. -/
abbrev Store := List (String × StoredJson)

/-- The record-level effect of one `upsert_cache` iteration once the filename is
known (lines 132–159): append the snapshot to an existing unified record,
destructively rebuild a non-unified one, create a fresh record when the file is
absent, and skip the item when `json.load` raises (caught per item). -/
def upsertStore (store : Store) (item : Dict) (now : String) : Store :=
  match getFilename item with
  | .error _ => store
  | .ok fname =>
    match assocGet store fname with
    | some (.unified st sn) =>
      assocSet store fname (.unified st (assocSet sn now (dynSnapshot item)))
    | some .nonUnified =>
      assocSet store fname (.unified (staticPart item) [(now, dynSnapshot item)])
    | some .corrupt => store
    | none =>
      assocSet store fname (.unified (staticPart item) [(now, dynSnapshot item)])

/-- `MarketCache.upsert_cache`: process the batch in order; `clock idx` is the
`datetime.now().isoformat()` drawn for the `idx`-th item that got past
`_get_filename` (an item with no identity fails before the clock is read);
every per-item error is caught, so the fold always continues. -/
def upsert_cache (store : Store) (items : List Dict) (clock : Nat → String)
    (idx : Nat) : Store :=
  match items with
  | [] => store
  | item :: rest =>
    match getFilename item with
    | .error _ => upsert_cache store rest clock idx
    | .ok _ => upsert_cache (upsertStore store item (clock idx)) rest clock (idx + 1)

/-- Whether a parsed snapshot time survives the window test of `load_cache`
(line 229): skipped when below an active start bound or above an active end bound. -/
def inWindow (start? end? : Option Nat) (t : Nat) : Bool :=
  !((match start? with | some s => decide (t < s) | none => false) ||
    (match end? with | some e => decide (e < t) | none => false))

/-- The per-key test of the selection loop: the key parses and its datetime is
inside the window (an unparseable key is skipped by the `except: continue`). -/
def selPred (start? end? : Option Nat) (ts : String) : Bool :=
  match parseTs ts with
  | some t => inWindow start? end? t
  | none => false

/-- The snapshot-selection loop of `load_cache` (lines 222–232): sort the keys,
scan newest-first, skip unparseable keys and keys outside the window, and stop
at the first hit. -/
def selectTs (sn : SnapMap) (start? end? : Option Nat) : Option String :=
  (((keysOf sn).insertionSort (fun a b => strLe a b = true)).reverse).find?
    (selPred start? end?)

/-- The per-file body of `load_cache` (lines 211–236): require the unified
shape and a non-empty snapshot map, select the newest in-window snapshot, and
merge `{**static, **snapshot, 'cached_at': ts}`. -/
def loadOne (data : StoredJson) (start? end? : Option Nat) : Option Dict :=
  match data with
  | .unified st sn =>
    if sn.isEmpty then none
    else
      match selectTs sn start? end? with
      | none => none
      | some ts =>
        match assocGet sn ts with
        | some snap => some (assocSet (pyUpdate st snap) "cached_at" (vStr ts))
        | none => none
  | _ => none

/-- `int(key)` normalization of a requested key (lines 187–194): a numeric key
(or a string holding one) is normalized through `int`, anything else is kept
as an opaque name key. -/
def normalizeKey (v : Value) : String :=
  match v with
  | vNum q => toString q.num  -- watchlist ids are integers
  | vStr s =>
    match s.toInt? with
    | some n => toString n
    | none => s
  | vBool b => if b then "1" else "0"
  | vNone => "None"

/-- The file-scanning loop of `load_cache` with its `offset`/`limit` counters
(`count`, `items_found`); `limit=0` is falsy in Python, so it never stops the scan. -/
def loadLoop (files : List (String × StoredJson)) (start? end? : Option Nat)
    (keyFilter : Option (List String)) (limit : Option Nat) (offset : Nat)
    (count itemsFound : Nat) : List Dict :=
  match files with
  | [] => []
  | (fname, data) :: rest =>
    if (match keyFilter with
        | some ks => decide (fname ∉ ks)
        | none => false) then
      loadLoop rest start? end? keyFilter limit offset count itemsFound
    else
      match loadOne data start? end? with
      | none => loadLoop rest start? end? keyFilter limit offset count itemsFound
      | some merged =>
        if offset ≤ count then
          if (match limit with
              | some l => decide (l ≠ 0 ∧ l ≤ itemsFound + 1)
              | none => false) then [merged]
          else merged ::
            loadLoop rest start? end? keyFilter limit offset (count + 1) (itemsFound + 1)
        else loadLoop rest start? end? keyFilter limit offset (count + 1) itemsFound

/-- `MarketCache.load_cache`: normalize the requested keys, scan the json
directory in sorted filename order, and collect the merged views. -/
def load_cache (store : Store) (start? end? : Option Nat)
    (keys : Option (List Value)) (limit : Option Nat) (offset : Nat) : List Dict :=
  let keyFilter := keys.map (fun ks => ks.map normalizeKey)
  let files := store.map Prod.fst
  let sortedFiles := files.insertionSort (fun a b => strLe a b = true)
  loadLoop (sortedFiles.filterMap (fun f => (assocGet store f).map (f, ·)))
    start? end? keyFilter limit offset 0 0

/-! ## The notification server (`BuffAutoNotificationServer`) -/

/-- Python `float(v)`: numbers pass through, booleans coerce to 0/1, `None`
raises `TypeError`, and a string is parsed as a decimal numeral (raising
`ValueError` when unparseable). -/
def strToRat? (s : String) : Option ℚ :=
  let core (cs : List Char) : Option ℚ :=
    let intPart := cs.takeWhile Char.isDigit
    let rest := cs.dropWhile Char.isDigit
    let intVal := intPart.foldl (fun acc c => acc * 10 + (c.toNat - 48)) (0 : Nat)
    match rest with
    | [] => if intPart.isEmpty then none else some (intVal : ℚ)
    | '.' :: frac =>
      if frac.all Char.isDigit ∧ ¬(intPart.isEmpty ∧ frac.isEmpty) then
        let fracVal := frac.foldl (fun acc c => acc * 10 + (c.toNat - 48)) (0 : Nat)
        some ((intVal : ℚ) + (fracVal : ℚ) / ((10 : ℚ) ^ frac.length))
      else none
    | _ => none
  match s.toList with
  | '-' :: cs => (core cs).map Neg.neg
  | '+' :: cs => core cs
  | cs => core cs

/-- Python `float()` on a modelled value. -/
def pyFloat : Value → Except PyErr ℚ
  | Value.vNum q => .ok q
  | Value.vBool b => .ok (if b then 1 else 0)
  | Value.vNone => .error .typeError
  | Value.vStr s =>
    match strToRat? s with
    | some q => .ok q
    | none => .error .valueError

/-- `current_value < value` where the left side is a float: comparing against a
non-number raises `TypeError` (booleans coerce). -/
def pyLtNum (q : ℚ) (v : Value) : Except PyErr Bool :=
  match v with
  | Value.vNum r => .ok (decide (q < r))
  | Value.vBool b => .ok (decide (q < if b then 1 else 0))
  | _ => .error .typeError

/-- `current_value > value`, same coercion rules. -/
def pyGtNum (q : ℚ) (v : Value) : Except PyErr Bool :=
  match v with
  | Value.vNum r => .ok (decide (q > r))
  | Value.vBool b => .ok (decide (q > if b then 1 else 0))
  | _ => .error .typeError

/-- `BuffAutoNotificationServer._evaluate_condition`.  `price_threshold`
coerces `item_data.get(target_field, 0)` through `float` (an exception there
propagates), then fires on `<`/`>` against `value` and falls through to `False`
for any other operator.  `price_change` is a `pass`; `ai_evaluation` coerces
`sell_min_price` and then returns the inert hook's `None` (falsy, modelled as
`false`); any other type returns `False`. -/
def evalCondition (cond item : Dict) : Except PyErr Bool :=
  match assocGet cond "condition_type" with
  | some (Value.vStr "price_threshold") =>
    let tf := (assocGet cond "target_field").getD Value.vNone
    let op := (assocGet cond "operator").getD Value.vNone
    let v := (assocGet cond "value").getD Value.vNone
    let raw := match tf with
      | Value.vStr s => (assocGet item s).getD (Value.vNum 0)
      | _ => Value.vNum 0
    match pyFloat raw with
    | .error e => .error e
    | .ok cur =>
      if op = Value.vStr "<" then pyLtNum cur v
      else if op = Value.vStr ">" then pyGtNum cur v
      else .ok false
  | some (Value.vStr "ai_evaluation") =>
    let raw := (assocGet item "sell_min_price").getD (Value.vNum 0)
    match pyFloat raw with
    | .error e => .error e
    | .ok _ => .ok false
  | _ => .ok false

/-- The staleness decision of `_check_user_watchlist` (lines 153–166), with
the trigger `(not cached_items) or is_stale`: `now` and parsed times are in
`parseTs`'s microsecond scale, `freq` is the user's `check_frequency_minutes`.
A present `cached_at` that is falsy, not a string, or unparseable leaves
`is_stale` at `True` (the parse failure is caught). -/
def checkStale (cachedItems : List Dict) (now : Nat) (freq : Nat) : Bool :=
  let is_stale :=
    match cachedItems with
    | [] => true
    | item :: _ =>
      match assocGet item "cached_at" with
      | some (Value.vStr ts) =>
        if ts = "" then true
        else
          match parseTs ts with
          | some t => decide (now - t > freq * 60 * 1000000)
          | none => true
      | some _ => true
      | none => true
  cachedItems.isEmpty || is_stale

/-! ## The item resolver (lines 177–215) -/

/-- The shape of a `get_goods_info` response as far as the resolver reads it. -/
structure GoodsInfoResp where
  goods_infos : Option (List (String × Dict))
  items : List Dict

/-- One text-search phase: try the keys in order, skipping falsy ones, calling
the capability on each truthy key, and stopping at the first non-empty
response.  Returns the keys actually searched (in order) and the first hit. -/
def trySearchKeys (search : Value → List Dict) (ks : List Value) :
    List Value × Option (List Dict) :=
  match ks with
  | [] => ([], none)
  | k :: rest =>
    if truthy k then
      let r := search k
      if r.isEmpty then
        let (as, res) := trySearchKeys search rest
        (k :: as, res)
      else ([k], some r)
    else trySearchKeys search rest

/-- Name recovery from a `get_goods_info` response (lines 196–207): prefer the
`goods_infos[goods_id]` entry (when that dict is truthy), and fall back to the
first element of `items` when no display name was recovered. -/
def resolveNamesFromInfo (info : Option GoodsInfoResp) (goodsId : String) :
    Value × Value × Value :=
  match info with
  | none => (Value.vNone, Value.vNone, Value.vNone)
  | some i =>
    let gis := i.goods_infos.getD []
    let gi := assocGet gis goodsId
    let (rmh, rname) :=
      match gi with
      | some g =>
        if g.isEmpty then (Value.vNone, Value.vNone)
        else ((assocGet g "market_hash_name").getD Value.vNone,
              (assocGet g "name").getD Value.vNone)
      | none => (Value.vNone, Value.vNone)
    if truthy rname = false ∧ i.items ≠ [] then
      match i.items with
      | first :: _ =>
        (if truthy rmh then rmh else (assocGet first "market_hash_name").getD Value.vNone,
         (assocGet first "short_name").getD Value.vNone,
         if truthy rname then rname else (assocGet first "name").getD Value.vNone)
      | [] => (rmh, Value.vNone, rname)
    else (rmh, Value.vNone, rname)

/-- The trace of one resolution: the search keys attempted in order, the
phase-1 outcome, whether the by-ID lookup ran, and the final response. -/
structure ResolveOutcome where
  attempts : List Value
  phase1 : Option (List Dict)
  usedById : Bool
  result : Option (List Dict)
  deriving DecidableEq

/-- The three search keys drawn from the cached record (lines 179–183):
`market_hash_name`, `short_name`, `name`, each `None` when absent. -/
def cachedKeys (cached : Option Dict) : List Value :=
  [match cached with
    | some c => (assocGet c "market_hash_name").getD Value.vNone
    | none => Value.vNone,
   match cached with
    | some c => (assocGet c "short_name").getD Value.vNone
    | none => Value.vNone,
   match cached with
    | some c => (assocGet c "name").getD Value.vNone
    | none => Value.vNone]

/-- The three search keys recovered by the by-ID lookup (line 208). -/
def resolvedKeys (info : Option GoodsInfoResp) (gid : String) : List Value :=
  [(resolveNamesFromInfo info gid).1, (resolveNamesFromInfo info gid).2.1,
   (resolveNamesFromInfo info gid).2.2]

/-- The resolver of `_check_user_watchlist`: try the cached record's
`market_hash_name`, `short_name` and `name` in that order; only when all fail
and the watch key is an `int` call `get_goods_info` and retry the same
three-name search with the recovered names. -/
def resolveItem (search : Value → List Dict)
    (getInfo : String → Option GoodsInfoResp) (goodsIdIsInt : Bool)
    (goodsId : String) (cached : Option Dict) : ResolveOutcome :=
  let p1 := trySearchKeys search (cachedKeys cached)
  match p1.2 with
  | some r => ⟨p1.1, some r, false, some r⟩
  | none =>
    if goodsIdIsInt then
      let p2 := trySearchKeys search (resolvedKeys (getInfo goodsId) goodsId)
      ⟨p1.1 ++ p2.1, none, true, p2.2⟩
    else ⟨p1.1, none, false, none⟩

/-! ## The per-entry condition loop (lines 234–241) -/

/-- The `for condition in conditions` loop: evaluate in list order, dispatch a
notification and `break` at the first firing condition; an evaluation error
propagates out of the pass.  The result is the list of conditions for which an
email was dispatched. -/
def notificationsFor (conds : List Dict) (item : Dict) :
    Except PyErr (List Dict) :=
  match conds with
  | [] => .ok []
  | c :: rest =>
    match evalCondition c item with
    | .error e => .error e
    | .ok b => if b then .ok [c] else notificationsFor rest item

/-! ## Concurrent upserts (claim C9)

`upsert_cache` performs an unsynchronized read-modify-write of the record file
(read at lines 132–135, write at lines 142–145/148–158); two per-user worker
threads refreshing the same good interleave freely at that IO boundary. -/

/-- The value a writer computes from the record it read (the modify step). -/
def rmwCompute (readVal : Option StoredJson) (item : Dict) (now : String) :
    StoredJson :=
  match readVal with
  | some (.unified st sn) => .unified st (assocSet sn now (dynSnapshot item))
  | some .nonUnified => .unified (staticPart item) [(now, dynSnapshot item)]
  | some .corrupt => .corrupt
  | none => .unified (staticPart item) [(now, dynSnapshot item)]

/-- The interleaving read₁, read₂, write₁, write₂ of two upserts of the same
identity key: both writers read the initial file, writer 2's write lands last. -/
def interleavedUpsert (init : Option StoredJson) (i1 i2 : Dict)
    (n1 n2 : String) : Option StoredJson :=
  let r1 := init
  let r2 := init
  let afterW1 := some (rmwCompute r1 i1 n1)
  let afterW2 := some (rmwCompute r2 i2 n2)
  let _ := afterW1
  afterW2

/-- The same two upserts run one after the other (what per-key serialization
would guarantee). -/
def serializedUpsert (init : Option StoredJson) (i1 i2 : Dict)
    (n1 n2 : String) : Option StoredJson :=
  some (rmwCompute (some (rmwCompute init i1 n1)) i2 n2)

/-! ## Association-list (Python dict) lemmas -/

theorem assocGet_assocSet_self {α : Type} (d : List (String × α)) (k : String) (v : α) :
    assocGet (assocSet d k v) k = some v := by
  induction d with
  | nil => simp [assocGet, assocSet]
  | cons hd tl ih =>
    by_cases h : hd.1 = k
    · simp [assocGet, assocSet, h]
    · simp [assocGet, assocSet, h, ih]

theorem assocGet_assocSet_ne {α : Type} (d : List (String × α)) (k k' : String) (v : α)
    (h : k ≠ k') : assocGet (assocSet d k v) k' = assocGet d k' := by
  induction d with
  | nil => simp [assocGet, assocSet, h]
  | cons hd tl ih =>
    simp only [assocSet]
    by_cases h1 : hd.1 = k
    · rw [if_pos h1]
      have h2 : hd.1 ≠ k' := by rw [h1]; exact h
      simp [assocGet, h2]
    · rw [if_neg h1]
      by_cases h2 : hd.1 = k'
      · simp [assocGet, h2]
      · simp [assocGet, h2, ih]

theorem assocSet_of_get_none {α : Type} (d : List (String × α)) (k : String) (v : α)
    (h : assocGet d k = none) : assocSet d k v = d ++ [(k, v)] := by
  induction d with
  | nil => simp [assocSet]
  | cons hd tl ih =>
    by_cases h1 : hd.1 = k
    · simp [assocGet, h1] at h
    · simp only [assocGet, h1, if_false] at h
      simp [assocSet, h1, ih h]

theorem assocGet_isSome_of_mem {α : Type} {d : List (String × α)} {k : String}
    (h : k ∈ keysOf d) : (assocGet d k).isSome := by
  induction d with
  | nil => simp [keysOf] at h
  | cons hd tl ih =>
    by_cases h1 : hd.1 = k
    · simp [assocGet, h1]
    · simp only [keysOf, List.map_cons, List.mem_cons] at h
      rcases h with h | h
      · exact absurd h.symm h1
      · simp only [assocGet, h1, if_false]
        exact ih h

theorem mem_keysOf_of_get_some {α : Type} {d : List (String × α)} {k : String} {v : α}
    (h : assocGet d k = some v) : k ∈ keysOf d := by
  induction d with
  | nil => simp [assocGet] at h
  | cons hd tl ih =>
    by_cases h1 : hd.1 = k
    · simp [keysOf, h1]
    · simp only [assocGet, h1, if_false] at h
      simp only [keysOf, List.map_cons, List.mem_cons]
      exact Or.inr (ih h)

theorem assocGet_append_left {α : Type} {d1 : List (String × α)} (d2 : List (String × α))
    {k : String} {v : α} (h : assocGet d1 k = some v) :
    assocGet (d1 ++ d2) k = some v := by
  induction d1 with
  | nil => simp [assocGet] at h
  | cons hd tl ih =>
    by_cases h1 : hd.1 = k
    · simp_all [assocGet]
    · simp only [assocGet, h1, if_false] at h
      simpa [assocGet, h1] using ih h

theorem keysOf_append {α : Type} (d1 d2 : List (String × α)) :
    keysOf (d1 ++ d2) = keysOf d1 ++ keysOf d2 := by
  simp [keysOf]

theorem pyUpdate_cons (a : Dict) (x : String × Value) (b : Dict) :
    pyUpdate a (x :: b) = pyUpdate (assocSet a x.1 x.2) b := by
  simp [pyUpdate, List.foldl]

/-- Lookup through `{**a, **b}`: a key hits `b` first, then `a`
(`b` is a Python dict, hence has no duplicate keys). -/
theorem assocGet_pyUpdate (a b : Dict) (k : String) (hb : (keysOf b).Nodup) :
    assocGet (pyUpdate a b) k = (assocGet b k).or (assocGet a k) := by
  induction b generalizing a with
  | nil => simp [pyUpdate, assocGet, Option.or]
  | cons x tl ih =>
    simp only [keysOf, List.map_cons, List.nodup_cons] at hb
    rw [pyUpdate_cons]
    rw [ih _ hb.2]
    by_cases hk : x.1 = k
    · subst hk
      have htl : assocGet tl x.1 = none := by
        rcases h : assocGet tl x.1 with _ | v
        · rfl
        · exact absurd (mem_keysOf_of_get_some h) (by simpa [keysOf] using hb.1)
      simp [assocGet, htl, assocGet_assocSet_self, Option.or]
    · simp [assocGet, hk, assocGet_assocSet_ne _ _ _ _ hk]

/-! ## The code-point order on strings -/

theorem tsLe_refl : ∀ as, tsLe as as = true := by
  intro as
  induction as with
  | nil => rfl
  | cons a tl ih => simp [tsLe, ih]

theorem strLe_refl (s : String) : strLe s s = true := tsLe_refl s.data

theorem tsLe_total : ∀ as bs, tsLe as bs = true ∨ tsLe bs as = true := by
  intro as
  induction as with
  | nil => intro bs; left; rfl
  | cons a tl ih =>
    intro bs
    cases bs with
    | nil => right; rfl
    | cons b bs =>
      simp only [tsLe]
      rcases Nat.lt_trichotomy a.toNat b.toNat with h | h | h
      · left; simp [h]
      · rcases ih bs with h2 | h2 <;> simp [h, h2]
      · right; simp [h, Nat.lt_asymm h]

theorem tsLe_trans : ∀ as bs cs, tsLe as bs = true → tsLe bs cs = true →
    tsLe as cs = true := by
  intro as
  induction as with
  | nil => intro bs cs _ _; rfl
  | cons a tl ih =>
    intro bs cs h1 h2
    cases bs with
    | nil => simp [tsLe] at h1
    | cons b bs =>
      cases cs with
      | nil => simp [tsLe] at h2
      | cons c cs =>
        simp only [tsLe] at h1 h2 ⊢
        split_ifs at h1 h2 ⊢ <;>
          first
            | rfl
            | omega
            | exact ih bs cs h1 h2

theorem char_eq_of_toNat_eq {a b : Char} (h : a.toNat = b.toNat) : a = b :=
  Char.ext (UInt32.ext h)

theorem tsLe_antisymm : ∀ as bs, tsLe as bs = true → tsLe bs as = true → as = bs := by
  intro as
  induction as with
  | nil =>
    intro bs _ h2
    cases bs with
    | nil => rfl
    | cons b bs => simp [tsLe] at h2
  | cons a tl ih =>
    intro bs h1 h2
    cases bs with
    | nil => simp [tsLe] at h1
    | cons b bs =>
      by_cases hab : a.toNat < b.toNat
      · by_cases hba : b.toNat < a.toNat
        · omega
        · simp [tsLe, hab, hba] at h2
      · by_cases hba : b.toNat < a.toNat
        · simp [tsLe, hab, hba] at h1
        · simp only [tsLe, hab, hba, if_false] at h1 h2
          have hc : a = b := char_eq_of_toNat_eq (by omega)
          rw [hc, ih bs h1 h2]

theorem strLe_total (a b : String) : strLe a b = true ∨ strLe b a = true :=
  tsLe_total a.data b.data

theorem strLe_trans {a b c : String} (h1 : strLe a b = true) (h2 : strLe b c = true) :
    strLe a c = true :=
  tsLe_trans a.data b.data c.data h1 h2

theorem strLe_antisymm {a b : String} (h1 : strLe a b = true) (h2 : strLe b a = true) :
    a = b := by
  have := tsLe_antisymm a.data b.data h1 h2
  cases a; cases b; simp_all

instance : IsTotal String (fun a b => strLe a b = true) := ⟨strLe_total⟩

instance : IsTrans String (fun a b => strLe a b = true) :=
  ⟨fun _ _ _ h1 h2 => strLe_trans h1 h2⟩

/-- In a descending (w.r.t. `strLe`) list, `find?` returns the greatest element
satisfying the predicate. -/
theorem find?_eq_of_greatest {l : List String} {p : String → Bool} {k : String}
    (hl : l.Pairwise (fun a b => strLe b a = true)) (hk : k ∈ l) (hpk : p k = true)
    (hmax : ∀ x ∈ l, p x = true → strLe x k = true) : l.find? p = some k := by
  induction l with
  | nil => simp at hk
  | cons a tl ih =>
    rcases List.pairwise_cons.mp hl with ⟨ha, htl⟩
    by_cases hpa : p a = true
    · rw [List.find?_cons_of_pos _ hpa]
      rcases List.mem_cons.mp hk with h | h
      · rw [h]
      · have h1 : strLe a k = true := hmax a (List.mem_cons_self a tl) hpa
        have h2 : strLe k a = true := ha k h
        rw [strLe_antisymm h1 h2]
    · rw [List.find?_cons_of_neg _ hpa]
      rcases List.mem_cons.mp hk with h | h
      · exact absurd (h ▸ hpk) hpa
      · exact ih htl h (fun x hx hpx => hmax x (List.mem_cons_of_mem a hx) hpx)

/-! ## Timestamp order: lexicographic string order agrees with parsed time -/

theorem digit?_some {c : Char} {x : Nat} (h : digit? c = some x) :
    48 ≤ c.toNat ∧ c.toNat ≤ 57 ∧ x = c.toNat - 48 := by
  unfold digit? at h
  split_ifs at h with hc
  exact ⟨hc.1, hc.2, (Option.some_inj.mp h).symm⟩

theorem num2_some {a b : Char} {x : Nat} (h : num2 a b = some x) :
    (48 ≤ a.toNat ∧ a.toNat ≤ 57) ∧ (48 ≤ b.toNat ∧ b.toNat ≤ 57) ∧
    x = (a.toNat - 48) * 10 + (b.toNat - 48) := by
  unfold num2 at h
  simp only [Option.bind_eq_some, Option.some_inj] at h
  obtain ⟨u, hu, v, hv, hx⟩ := h
  obtain ⟨ha1, ha2, ha3⟩ := digit?_some hu
  obtain ⟨hb1, hb2, hb3⟩ := digit?_some hv
  exact ⟨⟨ha1, ha2⟩, ⟨hb1, hb2⟩, by omega⟩

theorem num4_some {a b c d : Char} {x : Nat} (h : num4 a b c d = some x) :
    (48 ≤ a.toNat ∧ a.toNat ≤ 57) ∧ (48 ≤ b.toNat ∧ b.toNat ≤ 57) ∧
    (48 ≤ c.toNat ∧ c.toNat ≤ 57) ∧ (48 ≤ d.toNat ∧ d.toNat ≤ 57) ∧
    x = (a.toNat - 48) * 1000 + (b.toNat - 48) * 100 +
        (c.toNat - 48) * 10 + (d.toNat - 48) := by
  unfold num4 at h
  simp only [Option.bind_eq_some, Option.some_inj] at h
  obtain ⟨u, hu, v, hv, hx⟩ := h
  obtain ⟨⟨ha1, ha2⟩, ⟨hb1, hb2⟩, hu3⟩ := num2_some hu
  obtain ⟨⟨hc1, hc2⟩, ⟨hd1, hd2⟩, hv3⟩ := num2_some hv
  exact ⟨⟨ha1, ha2⟩, ⟨hb1, hb2⟩, ⟨hc1, hc2⟩, ⟨hd1, hd2⟩, by omega⟩

theorem parseFrac_le {r : List Char} {u : Nat} (h : parseFrac r = some u) :
    u ≤ 999999 := by
  unfold parseFrac at h
  split at h
  · simp only [Option.some_inj] at h; omega
  · split_ifs at h with hdot
    simp only [Option.bind_eq_some, Option.some_inj] at h
    obtain ⟨x, hx, y, hy, z, hz, hu⟩ := h
    obtain ⟨_, _, hx3⟩ := num2_some hx
    obtain ⟨_, _, hy3⟩ := num2_some hy
    obtain ⟨_, _, hz3⟩ := num2_some hz
    omega
  · exact absurd h (by simp)

/-- One step of the lexicographic comparison: a `≤` between cons cells means
either a strictly smaller head or equal heads and `≤` tails. -/
theorem tsLe_cases {a b : Char} {as bs : List Char}
    (h : tsLe (a :: as) (b :: bs) = true) :
    a.toNat < b.toNat ∨ (a = b ∧ tsLe as bs = true) := by
  simp only [tsLe] at h
  by_cases h1 : a.toNat < b.toNat
  · exact Or.inl h1
  · rw [if_neg h1] at h
    by_cases h2 : b.toNat < a.toNat
    · rw [if_pos h2] at h
      exact absurd h (by simp)
    · rw [if_neg h2] at h
      exact Or.inr ⟨char_eq_of_toNat_eq (by omega), h⟩

theorem parseFrac_mono {r1 r2 : List Char} {u1 u2 : Nat}
    (h1 : parseFrac r1 = some u1) (h2 : parseFrac r2 = some u2)
    (hle : tsLe r1 r2 = true) : u1 ≤ u2 := by
  unfold parseFrac at h1 h2
  split at h1
  · simp only [Option.some_inj] at h1; omega
  · rename_i dot1 a1 b1 c1 d1 e1 f1
    split_ifs at h1 with hdot1
    split at h2
    · simp [tsLe] at hle
    · rename_i dot2 a2 b2 c2 d2 e2 f2
      split_ifs at h2 with hdot2
      have hdd : dot2 = dot1 := by rw [hdot1, hdot2]
      subst hdd
      simp only [Option.bind_eq_some, Option.some_inj] at h1 h2
      obtain ⟨x1, hx1, y1, hy1, z1, hz1, hu1⟩ := h1
      obtain ⟨x2, hx2, y2, hy2, z2, hz2, hu2⟩ := h2
      obtain ⟨⟨ha11, ha12⟩, ⟨hb11, hb12⟩, hx1v⟩ := num2_some hx1
      obtain ⟨⟨hc11, hc12⟩, ⟨hd11, hd12⟩, hy1v⟩ := num2_some hy1
      obtain ⟨⟨he11, he12⟩, ⟨hf11, hf12⟩, hz1v⟩ := num2_some hz1
      obtain ⟨⟨ha21, ha22⟩, ⟨hb21, hb22⟩, hx2v⟩ := num2_some hx2
      obtain ⟨⟨hc21, hc22⟩, ⟨hd21, hd22⟩, hy2v⟩ := num2_some hy2
      obtain ⟨⟨he21, he22⟩, ⟨hf21, hf22⟩, hz2v⟩ := num2_some hz2
      rcases tsLe_cases hle with hlt | ⟨_, hle⟩
      · omega
      rcases tsLe_cases hle with hlt | ⟨hc, hle⟩
      · omega
      have hn1 : a1.toNat = a2.toNat := by rw [hc]
      rcases tsLe_cases hle with hlt | ⟨hc, hle⟩
      · omega
      have hn2 : b1.toNat = b2.toNat := by rw [hc]
      rcases tsLe_cases hle with hlt | ⟨hc, hle⟩
      · omega
      have hn3 : c1.toNat = c2.toNat := by rw [hc]
      rcases tsLe_cases hle with hlt | ⟨hc, hle⟩
      · omega
      have hn4 : d1.toNat = d2.toNat := by rw [hc]
      rcases tsLe_cases hle with hlt | ⟨hc, hle⟩
      · omega
      have hn5 : e1.toNat = e2.toNat := by rw [hc]
      rcases tsLe_cases hle with hlt | ⟨hc, hle⟩
      · omega
      have hn6 : f1.toNat = f2.toNat := by rw [hc]
      omega
    · exact absurd h2 (by simp)
  · exact absurd h1 (by simp)

theorem parseTsL_some {cs : List Char} {t : Nat} (h : parseTsL cs = some t) :
    ∃ (y1 y2 y3 y4 sep1 mo1 mo2 sep2 d1 d2 sep3 hh1 hh2 sep4 mi1 mi2 sep5
        ss1 ss2 : Char) (rest : List Char) (y mo d hh mi se us : Nat),
      cs = y1 :: y2 :: y3 :: y4 :: sep1 :: mo1 :: mo2 :: sep2 :: d1 :: d2 :: sep3 ::
        hh1 :: hh2 :: sep4 :: mi1 :: mi2 :: sep5 :: ss1 :: ss2 :: rest ∧
      sep1 = '-' ∧ sep2 = '-' ∧ sep3 = 'T' ∧ sep4 = ':' ∧ sep5 = ':' ∧
      num4 y1 y2 y3 y4 = some y ∧ num2 mo1 mo2 = some mo ∧ num2 d1 d2 = some d ∧
      num2 hh1 hh2 = some hh ∧ num2 mi1 mi2 = some mi ∧ num2 ss1 ss2 = some se ∧
      parseFrac rest = some us ∧
      1 ≤ mo ∧ mo ≤ 12 ∧ 1 ≤ d ∧ d ≤ 31 ∧ hh ≤ 23 ∧ mi ≤ 59 ∧ se ≤ 59 ∧
      t = tsVal y mo d hh mi se us := by
  unfold parseTsL at h
  split at h
  · rename_i y1 y2 y3 y4 sep1 mo1 mo2 sep2 d1 d2 sep3 hh1 hh2 sep4 mi1 mi2 sep5 ss1 ss2 rest
    split_ifs at h with hsep
    obtain ⟨hs1, hs2, hs3, hs4, hs5⟩ := hsep
    simp only [Option.bind_eq_some] at h
    obtain ⟨y, h4, mo, hmo, d, hd, hh, hhh, mi, hmi, se, hse, us, hus, hifeq⟩ := h
    split_ifs at hifeq with hrange
    obtain ⟨hr1, hr2, hr3, hr4, hr5, hr6, hr7⟩ := hrange
    exact ⟨y1, y2, y3, y4, sep1, mo1, mo2, sep2, d1, d2, sep3, hh1, hh2, sep4,
      mi1, mi2, sep5, ss1, ss2, rest,
      y, mo, d, hh, mi, se, us, rfl, hs1, hs2, hs3, hs4, hs5, h4, hmo, hd, hhh,
      hmi, hse, hus, hr1, hr2, hr3, hr4, hr5, hr6, hr7, (Option.some_inj.mp hifeq).symm⟩
  · exact absurd h (by simp)

set_option maxHeartbeats 4000000 in
/-- Code-point string order agrees with chronological order on strings that
`datetime.fromisoformat` accepts in this model: sorting snapshot keys as
strings and comparing their parsed datetimes never disagree. -/
theorem parseTsL_mono {cs1 cs2 : List Char} {t1 t2 : Nat}
    (h1 : parseTsL cs1 = some t1) (h2 : parseTsL cs2 = some t2)
    (hle : tsLe cs1 cs2 = true) : t1 ≤ t2 := by
  obtain ⟨y1, y2, y3, y4, sp1, mo1, mo2, sp2, d1, d2, sp3, hh1, hh2, sp4,
    mi1, mi2, sp5, ss1, ss2, rest,
    y, mo, d, hh, mi, se, us, hcs, hsp1, hsp2, hsp3, hsp4, hsp5, h4, hmo, hd,
    hhh, hmi, hse, hus, hr1, hr2, hr3, hr4, hr5, hr6, hr7, ht⟩ := parseTsL_some h1
  obtain ⟨z1, z2, z3, z4, sq1, no1, no2, sq2, e1, e2, sq3, jj1, jj2, sq4,
    ni1, ni2, sq5, tt1, tt2, rest',
    y', mo', d', hh', mi', se', us', hcs', hsq1, hsq2, hsq3, hsq4, hsq5, h4', hmo',
    hd', hhh', hmi', hse', hus', hq1, hq2, hq3, hq4, hq5, hq6, hq7, ht'⟩ :=
    parseTsL_some h2
  subst hcs; subst hcs'
  have hss1 : sq1 = sp1 := by rw [hsq1, hsp1]
  have hss2 : sq2 = sp2 := by rw [hsq2, hsp2]
  have hss3 : sq3 = sp3 := by rw [hsq3, hsp3]
  have hss4 : sq4 = sp4 := by rw [hsq4, hsp4]
  have hss5 : sq5 = sp5 := by rw [hsq5, hsp5]
  subst hss1; subst hss2; subst hss3; subst hss4; subst hss5
  clear hsp1 hsp2 hsp3 hsp4 hsp5 hsq1 hsq2 hsq3 hsq4 hsq5
  obtain ⟨⟨hy11, hy12⟩, ⟨hy21, hy22⟩, ⟨hy31, hy32⟩, ⟨hy41, hy42⟩, hyv⟩ := num4_some h4
  obtain ⟨⟨hmo11, hmo12⟩, ⟨hmo21, hmo22⟩, hmov⟩ := num2_some hmo
  obtain ⟨⟨hd11, hd12⟩, ⟨hd21, hd22⟩, hdv⟩ := num2_some hd
  obtain ⟨⟨hhh11, hhh12⟩, ⟨hhh21, hhh22⟩, hhv⟩ := num2_some hhh
  obtain ⟨⟨hmi11, hmi12⟩, ⟨hmi21, hmi22⟩, hmiv⟩ := num2_some hmi
  obtain ⟨⟨hse11, hse12⟩, ⟨hse21, hse22⟩, hsev⟩ := num2_some hse
  have husb := parseFrac_le hus
  obtain ⟨⟨hz11, hz12⟩, ⟨hz21, hz22⟩, ⟨hz31, hz32⟩, ⟨hz41, hz42⟩, hzv⟩ := num4_some h4'
  obtain ⟨⟨hno11, hno12⟩, ⟨hno21, hno22⟩, hnov⟩ := num2_some hmo'
  obtain ⟨⟨he11, he12⟩, ⟨he21, he22⟩, hev⟩ := num2_some hd'
  obtain ⟨⟨hjj11, hjj12⟩, ⟨hjj21, hjj22⟩, hjv⟩ := num2_some hhh'
  obtain ⟨⟨hni11, hni12⟩, ⟨hni21, hni22⟩, hniv⟩ := num2_some hmi'
  obtain ⟨⟨htt11, htt12⟩, ⟨htt21, htt22⟩, htv⟩ := num2_some hse'
  have husb' := parseFrac_le hus'
  subst ht; subst ht'
  unfold tsVal
  rcases tsLe_cases hle with hlt | ⟨hc, hle⟩
  · omega
  have hn1 : y1.toNat = z1.toNat := by rw [hc]
  rcases tsLe_cases hle with hlt | ⟨hc, hle⟩
  · omega
  have hn2 : y2.toNat = z2.toNat := by rw [hc]
  rcases tsLe_cases hle with hlt | ⟨hc, hle⟩
  · omega
  have hn3 : y3.toNat = z3.toNat := by rw [hc]
  rcases tsLe_cases hle with hlt | ⟨hc, hle⟩
  · omega
  have hn4 : y4.toNat = z4.toNat := by rw [hc]
  rcases tsLe_cases hle with hlt | ⟨_, hle⟩
  · omega
  rcases tsLe_cases hle with hlt | ⟨hc, hle⟩
  · omega
  have hn5 : mo1.toNat = no1.toNat := by rw [hc]
  rcases tsLe_cases hle with hlt | ⟨hc, hle⟩
  · omega
  have hn6 : mo2.toNat = no2.toNat := by rw [hc]
  rcases tsLe_cases hle with hlt | ⟨_, hle⟩
  · omega
  rcases tsLe_cases hle with hlt | ⟨hc, hle⟩
  · omega
  have hn7 : d1.toNat = e1.toNat := by rw [hc]
  rcases tsLe_cases hle with hlt | ⟨hc, hle⟩
  · omega
  have hn8 : d2.toNat = e2.toNat := by rw [hc]
  rcases tsLe_cases hle with hlt | ⟨_, hle⟩
  · omega
  rcases tsLe_cases hle with hlt | ⟨hc, hle⟩
  · omega
  have hn9 : hh1.toNat = jj1.toNat := by rw [hc]
  rcases tsLe_cases hle with hlt | ⟨hc, hle⟩
  · omega
  have hn10 : hh2.toNat = jj2.toNat := by rw [hc]
  rcases tsLe_cases hle with hlt | ⟨_, hle⟩
  · omega
  rcases tsLe_cases hle with hlt | ⟨hc, hle⟩
  · omega
  have hn11 : mi1.toNat = ni1.toNat := by rw [hc]
  rcases tsLe_cases hle with hlt | ⟨hc, hle⟩
  · omega
  have hn12 : mi2.toNat = ni2.toNat := by rw [hc]
  rcases tsLe_cases hle with hlt | ⟨_, hle⟩
  · omega
  rcases tsLe_cases hle with hlt | ⟨hc, hle⟩
  · omega
  have hn13 : ss1.toNat = tt1.toNat := by rw [hc]
  rcases tsLe_cases hle with hlt | ⟨hc, hle⟩
  · omega
  have hn14 : ss2.toNat = tt2.toNat := by rw [hc]
  have hfr := parseFrac_mono hus hus' hle
  omega

/-- `parseTs`-level wrapper for `parseTsL_mono`. -/
theorem parseTs_mono {s1 s2 : String} {t1 t2 : Nat}
    (h1 : parseTs s1 = some t1) (h2 : parseTs s2 = some t2)
    (hle : strLe s1 s2 = true) : t1 ≤ t2 :=
  parseTsL_mono h1 h2 hle

/-! ## Characterizing the snapshot selection of `load_cache` -/

theorem inWindow_some_iff {s e t : Nat} :
    inWindow (some s) (some e) t = true ↔ s ≤ t ∧ t ≤ e := by
  unfold inWindow
  simp only [Bool.not_eq_eq_eq_not, Bool.not_true, Bool.or_eq_false_iff,
    decide_eq_false_iff_not]
  omega

theorem selPred_true_iff {s e : Option Nat} {ts : String} :
    selPred s e ts = true ↔ ∃ t, parseTs ts = some t ∧ inWindow s e t = true := by
  unfold selPred
  rcases h : parseTs ts with _ | t <;> simp

theorem sortedDesc_pairwise (l : List String) :
    ((l.insertionSort (fun a b => strLe a b = true)).reverse).Pairwise
      (fun a b => strLe b a = true) := by
  rw [List.pairwise_reverse]
  exact List.sorted_insertionSort _ l

theorem selectTs_eq_some {sn : SnapMap} {s e : Option Nat} {k : String}
    (hk : k ∈ keysOf sn) (hpk : selPred s e k = true)
    (hmax : ∀ k', k' ∈ keysOf sn → selPred s e k' = true → strLe k' k = true) :
    selectTs sn s e = some k := by
  unfold selectTs
  apply find?_eq_of_greatest (sortedDesc_pairwise _)
  · simpa using hk
  · exact hpk
  · intro x hx hpx
    exact hmax x (by simpa using hx) hpx

theorem selectTs_eq_none {sn : SnapMap} {s e : Option Nat}
    (h : ∀ k ∈ keysOf sn, selPred s e k = false) :
    selectTs sn s e = none := by
  unfold selectTs
  rw [List.find?_eq_none]
  intro x hx
  simp [h x (by simpa using hx)]

theorem assocGet_mem {α : Type} {d : List (String × α)} {k : String} {v : α}
    (h : assocGet d k = some v) : (k, v) ∈ d := by
  induction d with
  | nil => simp [assocGet] at h
  | cons hd tl ih =>
    by_cases h1 : hd.1 = k
    · simp only [assocGet, h1, if_pos] at h
      have hv : v = hd.2 := (Option.some_inj.mp h).symm
      subst hv
      subst h1
      simp
    · simp only [assocGet, h1, if_false] at h
      exact List.mem_cons_of_mem hd (ih h)

theorem loadOne_unified_some {st : Dict} {sn : SnapMap} {s e : Option Nat}
    {k : String} {snap : Dict} (hsel : selectTs sn s e = some k)
    (hget : assocGet sn k = some snap) :
    loadOne (.unified st sn) s e =
      some (assocSet (pyUpdate st snap) "cached_at" (vStr k)) := by
  unfold loadOne
  cases sn with
  | nil => simp [assocGet] at hget
  | cons hd tl => simp [hsel, hget]

theorem loadOne_unified_none {st : Dict} {sn : SnapMap} {s e : Option Nat}
    (hsel : selectTs sn s e = none) : loadOne (.unified st sn) s e = none := by
  unfold loadOne
  cases sn with
  | nil => simp
  | cons hd tl => simp [hsel]

theorem load_cache_singleton (fname : String) (data : StoredJson)
    (s e : Option Nat) :
    load_cache [(fname, data)] s e none none 0 =
      match loadOne data s e with
      | some m => [m]
      | none => [] := by
  unfold load_cache
  simp only [List.map, Option.map_none, List.insertionSort, List.orderedInsert,
    List.filterMap]
  rcases h : loadOne data s e with _ | m <;>
    simp [assocGet, loadLoop, h]

/-! ## Claim theorems -/

/-- Well-formedness of a unified record beyond its `{static: dict, snapshots:
dict}` shape: being Python dicts, `static`, the snapshot map and every
snapshot have no duplicate keys. -/
def WFRecord (st : Dict) (sn : SnapMap) : Prop :=
  (keysOf st).Nodup ∧ (keysOf sn).Nodup ∧ ∀ p ∈ sn, (keysOf p.2).Nodup

instance (st : Dict) (sn : SnapMap) : Decidable (WFRecord st sn) := by
  unfold WFRecord
  infer_instance

/-- C1: for every well-formed cached record and query window `[t0, t1]`, the
load operation returns for that record the merge of its static mapping with
the snapshot at the greatest parseable timestamp in the window — snapshot keys
override static keys, `cached_at` (set to that timestamp) overrides both — and
excludes the record entirely when no snapshot timestamp falls in the window. -/
theorem load_cache_latest_in_window :
    (∀ (fname : String) (st : Dict) (sn : SnapMap) (t0 t1 : Nat) (k : String)
      (t : Nat), WFRecord st sn →
      k ∈ keysOf sn → parseTs k = some t → t0 ≤ t → t ≤ t1 →
      (∀ k' t', k' ∈ keysOf sn → k' ≠ k → parseTs k' = some t' →
        t0 ≤ t' → t' ≤ t1 → t' < t) →
      ∃ snap, assocGet sn k = some snap ∧
        load_cache [(fname, .unified st sn)] (some t0) (some t1) none none 0 =
          [assocSet (pyUpdate st snap) "cached_at" (vStr k)] ∧
        assocGet (assocSet (pyUpdate st snap) "cached_at" (vStr k)) "cached_at" =
          some (vStr k) ∧
        (∀ f, f ≠ "cached_at" →
          assocGet (assocSet (pyUpdate st snap) "cached_at" (vStr k)) f =
            (assocGet snap f).or (assocGet st f))) ∧
    (∀ (fname : String) (st : Dict) (sn : SnapMap) (t0 t1 : Nat),
      (∀ k t, k ∈ keysOf sn → parseTs k = some t → ¬(t0 ≤ t ∧ t ≤ t1)) →
      load_cache [(fname, .unified st sn)] (some t0) (some t1) none none 0 = []) := by
  constructor
  · intro fname st sn t0 t1 k t hwf hk hp hs ht hmax
    obtain ⟨snap, hget⟩ := Option.isSome_iff_exists.mp (assocGet_isSome_of_mem hk)
    have hpred : selPred (some t0) (some t1) k = true :=
      selPred_true_iff.mpr ⟨t, hp, inWindow_some_iff.mpr ⟨hs, ht⟩⟩
    have hmax' : ∀ k', k' ∈ keysOf sn → selPred (some t0) (some t1) k' = true →
        strLe k' k = true := by
      intro k' hk' hpk'
      by_cases he : k' = k
      · rw [he]; exact strLe_refl k
      · obtain ⟨t', hp', hw'⟩ := selPred_true_iff.mp hpk'
        obtain ⟨hs', ht'⟩ := inWindow_some_iff.mp hw'
        have hlt := hmax k' t' hk' he hp' hs' ht'
        rcases strLe_total k' k with hle | hle
        · exact hle
        · exact absurd (parseTs_mono hp hp' hle) (by omega)
    have hsel := selectTs_eq_some hk hpred hmax'
    have hload := @loadOne_unified_some st _ _ _ _ _ hsel hget
    have hsnapnodup : (keysOf snap).Nodup := hwf.2.2 (k, snap) (assocGet_mem hget)
    refine ⟨snap, hget, ?_, assocGet_assocSet_self _ _ _, ?_⟩
    · rw [load_cache_singleton, hload]
    · intro f hf
      rw [assocGet_assocSet_ne _ _ _ _ (Ne.symm hf),
        assocGet_pyUpdate st snap f hsnapnodup]
  · intro fname st sn t0 t1 h
    have hnone : ∀ kk ∈ keysOf sn, selPred (some t0) (some t1) kk = false := by
      intro kk hkk
      rcases hb : selPred (some t0) (some t1) kk with _ | _
      · rfl
      · obtain ⟨t, hp, hw⟩ := selPred_true_iff.mp hb
        exact absurd (inWindow_some_iff.mp hw) (h kk t hkk hp)
    rw [load_cache_singleton, loadOne_unified_none (selectTs_eq_none hnone)]

/-- Concrete static part for the C1 witness. -/
def c1Static : Dict := [("name", vStr "AK-47"), ("game", vStr "csgo")]

/-- Concrete earlier snapshot for the C1 witness. -/
def c1Snap1 : Dict := [("sell_min_price", vStr "100")]

/-- Concrete later snapshot for the C1 witness. -/
def c1Snap2 : Dict := [("sell_min_price", vStr "80")]

/-- Concrete snapshot map for the C1 witness. -/
def c1Sn : SnapMap :=
  [("2024-01-02T03:04:05.000001", c1Snap1), ("2024-01-02T03:04:06.000002", c1Snap2)]

/-- Witness for C1: on a record with two snapshots inside the window, the load
returns the merge with the later snapshot. -/
theorem load_cache_latest_in_window_witness :
    load_cache [("42", .unified c1Static c1Sn)] (some (tsVal 2024 1 1 0 0 0 0))
      (some (tsVal 2025 1 1 0 0 0 0)) none none 0 =
      [assocSet (pyUpdate c1Static c1Snap2) "cached_at"
        (vStr "2024-01-02T03:04:06.000002")] := by
  obtain ⟨snap, hget, hload, -, -⟩ := load_cache_latest_in_window.1 "42" c1Static c1Sn
    (tsVal 2024 1 1 0 0 0 0) (tsVal 2025 1 1 0 0 0 0)
    "2024-01-02T03:04:06.000002" (tsVal 2024 1 2 3 4 6 2)
    (by decide) (by decide) (by decide) (by decide) (by decide)
    (by
      intro k' t' hk' hne hp hs ht
      simp only [c1Sn, keysOf, List.map_cons, List.map_nil, List.mem_cons,
        List.not_mem_nil, or_false] at hk'
      rcases hk' with rfl | rfl
      · have hv : (some (tsVal 2024 1 2 3 4 5 1) : Option Nat) = some t' := by
          rw [← hp]; decide
        have := Option.some_inj.mp hv
        subst this
        decide
      · exact absurd rfl hne)
  have hs : snap = c1Snap2 := by
    have : (some c1Snap2 : Option Dict) = some snap := by
      rw [← hget]; decide
    exact (Option.some_inj.mp this).symm
  rw [hs] at hload
  exact hload

/-- C2: an upsert targeting an identity key whose existing record is
well-formed only grows the snapshot map: the key set afterwards is a superset
of the key set before, and the values at pre-existing timestamp keys are
unchanged (the spec guarantees timestamps are unique per write, so the fresh
timestamp is not already a key). -/
theorem upsert_append_only :
    ∀ (store : Store) (fname : String) (st : Dict) (sn : SnapMap) (item : Dict)
      (now : String),
      getFilename item = .ok fname →
      assocGet store fname = some (.unified st sn) →
      assocGet sn now = none →
      ∃ sn', assocGet (upsertStore store item now) fname =
          some (.unified st sn') ∧
        (∀ kk, kk ∈ keysOf sn → kk ∈ keysOf sn') ∧
        (∀ kk, kk ∈ keysOf sn → assocGet sn' kk = assocGet sn kk) := by
  intro store fname st sn item now hf hrec hfresh
  have hstep : upsertStore store item now =
      assocSet store fname (.unified st (assocSet sn now (dynSnapshot item))) := by
    simp [upsertStore, hf, hrec]
  have happ : assocSet sn now (dynSnapshot item) = sn ++ [(now, dynSnapshot item)] :=
    assocSet_of_get_none sn now _ hfresh
  refine ⟨assocSet sn now (dynSnapshot item), ?_, ?_, ?_⟩
  · rw [hstep, assocGet_assocSet_self]
  · intro kk hkk
    rw [happ, keysOf_append]
    exact List.mem_append_left _ hkk
  · intro kk hkk
    obtain ⟨w, hw⟩ := Option.isSome_iff_exists.mp (assocGet_isSome_of_mem hkk)
    rw [happ, assocGet_append_left _ hw, hw]

/-- Concrete store for the C2 witness: one record keyed `"42"`. -/
def c2St : Dict := [("name", vStr "AK-47"), ("id", vNum 42)]

/-- Concrete snapshot map for the C2 witness. -/
def c2Sn : SnapMap := [("2024-01-02T03:04:05.000001", [("sell_min_price", vStr "100")])]

/-- Concrete store for the C2 witness. -/
def c2Store : Store := [("42", .unified c2St c2Sn)]

/-- Concrete incoming item for the C2 witness. -/
def c2Item : Dict := [("id", vNum 42), ("sell_min_price", vStr "80")]

/-- Witness for C2 at a concrete record, item and fresh timestamp. -/
theorem upsert_append_only_witness :
    ∃ sn', assocGet (upsertStore c2Store c2Item "2024-01-02T03:04:07.000003") "42" =
        some (.unified c2St sn') ∧
      (∀ kk, kk ∈ keysOf c2Sn → kk ∈ keysOf sn') ∧
      (∀ kk, kk ∈ keysOf c2Sn → assocGet sn' kk = assocGet c2Sn kk) :=
  upsert_append_only c2Store "42" c2St c2Sn c2Item "2024-01-02T03:04:07.000003"
    (by decide) (by decide) (by decide)

/-- C7: an upsert into an existing well-formed record leaves the `static`
mapping exactly as it was; the only change to the store is that this record
gains one appended snapshot entry — every other record is untouched. -/
theorem upsert_preserves_static :
    ∀ (store : Store) (fname : String) (st : Dict) (sn : SnapMap) (item : Dict)
      (now : String),
      getFilename item = .ok fname →
      assocGet store fname = some (.unified st sn) →
      assocGet sn now = none →
      assocGet (upsertStore store item now) fname =
        some (.unified st (sn ++ [(now, dynSnapshot item)])) ∧
      (∀ g, g ≠ fname → assocGet (upsertStore store item now) g = assocGet store g) := by
  intro store fname st sn item now hf hrec hfresh
  have hstep : upsertStore store item now =
      assocSet store fname (.unified st (assocSet sn now (dynSnapshot item))) := by
    simp [upsertStore, hf, hrec]
  constructor
  · rw [hstep, assocGet_assocSet_self, assocSet_of_get_none sn now _ hfresh]
  · intro g hg
    rw [hstep, assocGet_assocSet_ne _ _ _ _ (Ne.symm hg)]

/-- Concrete static part for the C7 witness. -/
def c7St : Dict := [("name", vStr "M4A4"), ("id", vNum 7)]

/-- Concrete snapshot map for the C7 witness. -/
def c7Sn : SnapMap := [("2024-01-02T03:04:05.000001", [("sell_num", vNum 3)])]

/-- Concrete store for the C7 witness: the target record plus a bystander. -/
def c7Store : Store := [("7", .unified c7St c7Sn), ("8", .nonUnified)]

/-- Concrete incoming item for the C7 witness (same static fields re-sent). -/
def c7Item : Dict := [("id", vNum 7), ("name", vStr "M4A4"), ("sell_num", vNum 5)]

/-- Witness for C7 at a concrete record and item. -/
theorem upsert_preserves_static_witness :
    assocGet (upsertStore c7Store c7Item "2024-01-02T03:04:08.000004") "7" =
      some (.unified c7St (c7Sn ++ [("2024-01-02T03:04:08.000004", dynSnapshot c7Item)])) ∧
    (∀ g, g ≠ "7" →
      assocGet (upsertStore c7Store c7Item "2024-01-02T03:04:08.000004") g =
        assocGet c7Store g) :=
  upsert_preserves_static c7Store "7" c7St c7Sn c7Item "2024-01-02T03:04:08.000004"
    (by decide) (by decide) (by decide)

/-- C8: an item with neither a truthy `id` nor a truthy canonical name fails
with the identity `ValueError`; the error is caught at item granularity, so
the batch continues and the store ends exactly as if the item were absent. -/
theorem upsert_skips_bad_item :
    ∀ (store : Store) (clock : Nat → String) (idx : Nat) (xs ys : List Dict)
      (bad : Dict),
      truthy ((assocGet bad "id").getD vNone) = false →
      truthy ((assocGet bad "market_hash_name").getD vNone) = false →
      getFilename bad = .error .valueError ∧
      upsert_cache store (xs ++ bad :: ys) clock idx =
        upsert_cache store (xs ++ ys) clock idx := by
  intro store clock idx xs ys bad h1 h2
  have hbad : getFilename bad = .error .valueError := by
    simp [getFilename, h1, h2]
  refine ⟨hbad, ?_⟩
  induction xs generalizing store idx with
  | nil => simp [upsert_cache, hbad]
  | cons x xs ih =>
    rcases hx : getFilename x with e | f <;>
      simp only [List.cons_append, upsert_cache, hx] <;> exact ih _ _

/-- Concrete good item before the failing one, for the C8 witness. -/
def c8Good1 : Dict := [("id", vNum 42), ("sell_min_price", vStr "100")]

/-- Concrete identity-less item for the C8 witness. -/
def c8Bad : Dict := [("id", vNum 0), ("name", vStr "nameless")]

/-- Concrete good item after the failing one, for the C8 witness. -/
def c8Good2 : Dict := [("market_hash_name", vStr "P250"), ("sell_num", vNum 1)]

/-- Witness for C8: the three-item batch with the identity-less item in the
middle writes exactly what the two-item batch writes. -/
theorem upsert_skips_bad_item_witness :
    getFilename c8Bad = .error .valueError ∧
    upsert_cache [] ([c8Good1] ++ c8Bad :: [c8Good2]) (fun _ => "2024-01-02T00:00:00") 0 =
      upsert_cache [] ([c8Good1] ++ [c8Good2]) (fun _ => "2024-01-02T00:00:00") 0 :=
  upsert_skips_bad_item [] (fun _ => "2024-01-02T00:00:00") 0 [c8Good1] [c8Good2]
    c8Bad (by decide) (by decide)

/-- C10: identity-key derivation treats a falsy `id` (0, empty string, `None`
or absent) as missing: a truthy `id` always wins and is stringified, a falsy
`id` with a non-empty canonical name keys the record by the MD5 hex digest of
that name, and the identity `ValueError` occurs exactly when both are falsy. -/
theorem identity_key_derivation :
    ∀ (item : Dict),
      (truthy ((assocGet item "id").getD vNone) = true →
        getFilename item = .ok (pyStr ((assocGet item "id").getD vNone))) ∧
      (truthy ((assocGet item "id").getD vNone) = false →
        ∀ s, (assocGet item "market_hash_name").getD vNone = vStr s → s ≠ "" →
          getFilename item = .ok (md5Hex s)) ∧
      (getFilename item = .error .valueError ↔
        (truthy ((assocGet item "id").getD vNone) = false ∧
         truthy ((assocGet item "market_hash_name").getD vNone) = false)) := by
  intro item
  refine ⟨?_, ?_, ?_, ?_⟩
  · intro h
    simp [getFilename, h]
  · intro h s hs hne
    have ht : truthy (vStr s) = true := by simpa [truthy, bne_iff_ne] using hne
    simp [getFilename, h, hs, ht]
  · intro h
    by_cases h1 : truthy ((assocGet item "id").getD vNone)
    · simp [getFilename, h1] at h
    · by_cases h2 : truthy ((assocGet item "market_hash_name").getD vNone)
      · simp only [getFilename, h1, Bool.false_eq_true, if_false, h2, if_true] at h
        rcases hm : (assocGet item "market_hash_name").getD vNone with _ | q | s | b <;>
          rw [hm] at h <;> simp at h
      · exact ⟨Bool.eq_false_iff.mpr h1, Bool.eq_false_iff.mpr h2⟩
  · intro h
    simp [getFilename, h.1, h.2]

/-- Witness for C10: falsy `id = 0` with a non-empty canonical name keys the
record by the name's digest. -/
theorem identity_key_derivation_witness :
    getFilename [("id", vNum 0), ("market_hash_name", vStr "AK-47 Redline")] =
      .ok (md5Hex "AK-47 Redline") :=
  (identity_key_derivation [("id", vNum 0), ("market_hash_name", vStr "AK-47 Redline")]).2.1
    (by decide) "AK-47 Redline" (by decide) (by decide)

/-- Fixture: a `price_threshold` condition on `sell_min_price` with `<` and 90. -/
def c3Cond : Dict :=
  [("condition_type", vStr "price_threshold"), ("target_field", vStr "sell_min_price"),
   ("operator", vStr "<"), ("value", vNum 90)]

/-- C3 counterexample: on a view whose target field holds the unparseable
string `"abc"`, the claim predicts the evaluator returns the comparison with
the field taken as 0 (`.ok true` here, since 0 < 90); the code instead raises
`ValueError` out of `float("abc")` and the evaluator does not return. -/
theorem eval_condition_raises_on_unparseable :
    evalCondition c3Cond [("sell_min_price", vStr "abc")] = .error .valueError ∧
    (Except.error .valueError : Except PyErr Bool) ≠ .ok true := by
  decide

/-- C3 amended: for a `price_threshold` condition with a numeric threshold,
the evaluator returns the operator comparison with the target field coerced to
a number, taking 0 when the field is ABSENT (an operator other than `<`/`>`
never matches); when the field is present but not coercible the evaluator
raises the coercion error instead of defaulting to 0. -/
theorem eval_condition_price_threshold :
    ∀ (cond item : Dict) (tf op : String) (v : ℚ),
      assocGet cond "condition_type" = some (vStr "price_threshold") →
      assocGet cond "target_field" = some (vStr tf) →
      assocGet cond "operator" = some (vStr op) →
      assocGet cond "value" = some (vNum v) →
      (assocGet item tf = none →
        evalCondition cond item =
          .ok (if op = "<" then decide ((0 : ℚ) < v)
               else if op = ">" then decide ((0 : ℚ) > v) else false)) ∧
      (∀ w q, assocGet item tf = some w → pyFloat w = .ok q →
        evalCondition cond item =
          .ok (if op = "<" then decide (q < v)
               else if op = ">" then decide (q > v) else false)) ∧
      (∀ w e', assocGet item tf = some w → pyFloat w = .error e' →
        evalCondition cond item = .error e') := by
  intro cond item tf op v hct htf hop hv
  refine ⟨?_, ?_, ?_⟩
  · intro habs
    simp only [evalCondition, hct, htf, hop, hv, habs, Option.getD, pyFloat,
      pyLtNum, pyGtNum]
    by_cases h1 : op = "<"
    · simp [h1]
    · by_cases h2 : op = ">"
      · simp [h1, h2]
      · simp [h1, h2]
  · intro w q hw hq
    simp only [evalCondition, hct, htf, hop, hv, hw, Option.getD, hq,
      pyLtNum, pyGtNum]
    by_cases h1 : op = "<"
    · simp [h1]
    · by_cases h2 : op = ">"
      · simp [h1, h2]
      · simp [h1, h2]
  · intro w e' hw he
    simp only [evalCondition, hct, htf, hop, hv, hw, Option.getD, he]

/-- Witness for the amended C3: with the field absent the evaluator returns
`0 < 90`, i.e. a match, without raising. -/
theorem eval_condition_price_threshold_witness :
    evalCondition c3Cond [] = .ok true := by
  have h := (eval_condition_price_threshold c3Cond [] "sell_min_price" "<" 90
    (by decide) (by decide) (by decide) (by decide)).1 rfl
  simpa using h

/-- C4: the staleness predicate fires iff no cached view exists or the view's
`cached_at` is strictly more than the check frequency in the past; a view
whose age is exactly the frequency is fresh. Times are in the microsecond
scale of `parseTs`; `freq` is the configured `check_frequency_minutes`. -/
theorem staleness_strict_threshold :
    (∀ (now freq : Nat), checkStale [] now freq = true) ∧
    (∀ (v : Dict) (ts : String) (t now freq : Nat),
      assocGet v "cached_at" = some (vStr ts) → ts ≠ "" → parseTs ts = some t →
      (checkStale [v] now freq = true ↔
        (now : ℤ) - (t : ℤ) > (freq : ℤ) * 60 * 1000000)) ∧
    (∀ (v : Dict) (ts : String) (t freq : Nat),
      assocGet v "cached_at" = some (vStr ts) → ts ≠ "" → parseTs ts = some t →
      checkStale [v] (t + freq * 60 * 1000000) freq = false) := by
  have hmain : ∀ (v : Dict) (ts : String) (t now freq : Nat),
      assocGet v "cached_at" = some (vStr ts) → ts ≠ "" → parseTs ts = some t →
      (checkStale [v] now freq = true ↔
        (now : ℤ) - (t : ℤ) > (freq : ℤ) * 60 * 1000000) := by
    intro v ts t now freq hget hne hp
    simp only [checkStale, hget, hne, if_false, hp, List.isEmpty_cons,
      Bool.false_or, decide_eq_true_eq]
    constructor
    · intro h; omega
    · intro h; omega
  refine ⟨?_, hmain, ?_⟩
  · intro now freq; rfl
  · intro v ts t freq hget hne hp
    rw [Bool.eq_false_iff]
    intro htrue
    have := (hmain v ts t (t + freq * 60 * 1000000) freq hget hne hp).mp htrue
    omega

/-- Witness for C4: a view exactly `freq` minutes old is fresh. -/
theorem staleness_strict_threshold_witness :
    checkStale [[("cached_at", vStr "2024-01-02T03:04:05")]]
      (tsVal 2024 1 2 3 4 5 0 + 30 * 60 * 1000000) 30 = false :=
  staleness_strict_threshold.2.2 [("cached_at", vStr "2024-01-02T03:04:05")]
    "2024-01-02T03:04:05" (tsVal 2024 1 2 3 4 5 0) 30
    (by decide) (by decide) (by decide)

/-- C5: the resolver searches the cached record's canonical market name, short
name and display name in exactly that order, stopping at the first non-empty
response — with a search capability that only answers for the short name `B`,
exactly the two attempts `A` then `B` happen and the by-ID lookup never runs.
The by-ID lookup runs exactly when all three attempts fail and the watch key
is an `int`, and then the same three-name search is retried with the recovered
names. -/
theorem resolver_ordering :
    (∀ (search : Value → List Dict) (getInfo : String → Option GoodsInfoResp)
      (b : Bool) (gid : String) (cached : Dict) (A B C : String) (r : List Dict),
      assocGet cached "market_hash_name" = some (vStr A) → A ≠ "" →
      assocGet cached "short_name" = some (vStr B) → B ≠ "" →
      assocGet cached "name" = some (vStr C) → C ≠ "" →
      search (vStr A) = [] → search (vStr B) = r → r ≠ [] →
      resolveItem search getInfo b gid (some cached) =
        ⟨[vStr A, vStr B], some r, false, some r⟩) ∧
    (∀ (search : Value → List Dict) (getInfo : String → Option GoodsInfoResp)
      (b : Bool) (gid : String) (cached : Option Dict),
      (resolveItem search getInfo b gid cached).usedById = true ↔
        ((resolveItem search getInfo b gid cached).phase1 = none ∧ b = true)) ∧
    (∀ (search : Value → List Dict) (getInfo : String → Option GoodsInfoResp)
      (gid : String) (cached : Option Dict),
      (resolveItem search getInfo true gid cached).phase1 = none →
      (resolveItem search getInfo true gid cached).result =
        (trySearchKeys search (resolvedKeys (getInfo gid) gid)).2) := by
  refine ⟨?_, ?_, ?_⟩
  · intro search getInfo b gid cached A B C r hA hAne hB hBne hC hCne hsA hsB hrne
    have htA : truthy (vStr A) = true := by simpa [truthy, bne_iff_ne] using hAne
    have htB : truthy (vStr B) = true := by simpa [truthy, bne_iff_ne] using hBne
    have hre : r.isEmpty = false := by
      cases r
      · exact absurd rfl hrne
      · rfl
    have hks : cachedKeys (some cached) = [vStr A, vStr B, vStr C] := by
      simp [cachedKeys, hA, hB, hC]
    have hp1 : trySearchKeys search [vStr A, vStr B, vStr C] = ([vStr A, vStr B], some r) := by
      simp [trySearchKeys, htA, htB, hsA, hsB, hre]
    simp [resolveItem, hks, hp1]
  · intro search getInfo b gid cached
    unfold resolveItem
    rcases hp : (trySearchKeys search (cachedKeys cached)).2 with _ | r
    · simp only [hp]
      cases b <;> simp
    · simp only [hp]
      simp
  · intro search getInfo gid cached h
    unfold resolveItem at h ⊢
    rcases hp : (trySearchKeys search (cachedKeys cached)).2 with _ | r
    · simp [hp]
    · simp only [hp] at h
      simp at h

/-- Fixture: the C5 witness's cached record with the three names. -/
def c5Cached : Dict :=
  [("market_hash_name", vStr "A"), ("short_name", vStr "B"), ("name", vStr "C")]

/-- Fixture: a search capability that answers only for the short name `B`. -/
def c5Search : Value → List Dict :=
  fun v => if v = vStr "B" then [[("id", vNum 1)]] else []

/-- Witness for C5: exactly two attempts, `A` then `B`, and no by-ID lookup. -/
theorem resolver_ordering_witness :
    resolveItem c5Search (fun _ => none) true "1" (some c5Cached) =
      ⟨[vStr "A", vStr "B"], some [[("id", vNum 1)]], false, some [[("id", vNum 1)]]⟩ :=
  resolver_ordering.1 c5Search (fun _ => none) true "1" c5Cached "A" "B" "C"
    [[("id", vNum 1)]] (by decide) (by decide) (by decide) (by decide) (by decide)
    (by decide) (by decide) (by decide) (by decide)

/-- C6: a watch entry's conditions are evaluated in list order, the loop stops
at the first firing condition, and at most one notification is dispatched per
entry per pass; two conditions that would both fire yield exactly the first
condition's notification. -/
theorem at_most_one_notification :
    (∀ (conds : List Dict) (item : Dict) (l : List Dict),
      notificationsFor conds item = .ok l → l.length ≤ 1) ∧
    (∀ (pre post : List Dict) (c : Dict) (item : Dict),
      (∀ c' ∈ pre, evalCondition c' item = .ok false) →
      evalCondition c item = .ok true →
      notificationsFor (pre ++ c :: post) item = .ok [c]) ∧
    (∀ (c1 c2 : Dict) (item : Dict),
      evalCondition c1 item = .ok true → evalCondition c2 item = .ok true →
      notificationsFor [c1, c2] item = .ok [c1]) := by
  have hfirst : ∀ (pre post : List Dict) (c : Dict) (item : Dict),
      (∀ c' ∈ pre, evalCondition c' item = .ok false) →
      evalCondition c item = .ok true →
      notificationsFor (pre ++ c :: post) item = .ok [c] := by
    intro pre post c item hpre hc
    induction pre with
    | nil => simp [notificationsFor, hc]
    | cons p ps ih =>
      have hp : evalCondition p item = .ok false := hpre p (List.mem_cons_self p ps)
      simp only [List.cons_append, notificationsFor, hp, Bool.false_eq_true, if_false]
      exact ih (fun c' hc' => hpre c' (List.mem_cons_of_mem p hc'))
  refine ⟨?_, hfirst, ?_⟩
  · intro conds item l h
    induction conds generalizing l with
    | nil =>
      simp only [notificationsFor, Except.ok.injEq] at h
      simp [← h]
    | cons c cs ih =>
      simp only [notificationsFor] at h
      rcases he : evalCondition c item with e | bv <;> rw [he] at h
      · exact absurd h (by simp)
      · cases bv
        · simp only [Bool.false_eq_true, if_false] at h
          exact ih _ h
        · simp only [if_true] at h
          simp only [Except.ok.injEq] at h
          simp [← h]
  · intro c1 c2 item h1 h2
    exact hfirst [] [c2] c1 item (by simp) h1

/-- Fixture: first firing condition of the C6 witness. -/
def c6Cond1 : Dict :=
  [("condition_type", vStr "price_threshold"), ("target_field", vStr "sell_min_price"),
   ("operator", vStr "<"), ("value", vNum 90)]

/-- Fixture: second (also firing) condition of the C6 witness. -/
def c6Cond2 : Dict :=
  [("condition_type", vStr "price_threshold"), ("target_field", vStr "sell_min_price"),
   ("operator", vStr "<"), ("value", vNum 100)]

/-- Fixture: the C6 witness's merged view. -/
def c6Item : Dict := [("sell_min_price", vNum 50)]

/-- Witness for C6: both conditions fire, exactly one notification results,
for the first condition. -/
theorem at_most_one_notification_witness :
    notificationsFor [c6Cond1, c6Cond2] c6Item = .ok [c6Cond1] :=
  at_most_one_notification.2.2 c6Cond1 c6Cond2 c6Item (by decide) (by decide)

/-- Fixture: the initial record two workers race on. -/
def c9Init : Option StoredJson := some (.unified [("id", vNum 42)] [])

/-- Fixture: the first worker's freshly fetched item. -/
def c9ItemA : Dict := [("id", vNum 42), ("sell_min_price", vStr "100")]

/-- Fixture: the second worker's freshly fetched item. -/
def c9ItemB : Dict := [("id", vNum 42), ("sell_min_price", vStr "90")]

/-- C9 (evidence of the unserialized write path): under the interleaving
read₁ read₂ write₁ write₂ of two upserts of the same identity key, the first
writer's snapshot `t1` is absent from the final record even though both
upserts completed — a lost update the claim's per-key serialization forbids —
while the serialized schedule keeps both snapshots. -/
theorem lost_update_interleaving :
    (∃ st sn, interleavedUpsert c9Init c9ItemA c9ItemB
        "2024-01-02T03:04:05.000001" "2024-01-02T03:04:05.000002" =
        some (.unified st sn) ∧
      assocGet sn "2024-01-02T03:04:05.000001" = none) ∧
    (∃ st sn, serializedUpsert c9Init c9ItemA c9ItemB
        "2024-01-02T03:04:05.000001" "2024-01-02T03:04:05.000002" =
        some (.unified st sn) ∧
      (assocGet sn "2024-01-02T03:04:05.000001").isSome ∧
      (assocGet sn "2024-01-02T03:04:05.000002").isSome) := by
  refine ⟨⟨[("id", vNum 42)], [("2024-01-02T03:04:05.000002",
    [("sell_min_price", vStr "90")])], by decide, by decide⟩,
    ⟨[("id", vNum 42)], [("2024-01-02T03:04:05.000001",
      [("sell_min_price", vStr "100")]), ("2024-01-02T03:04:05.000002",
      [("sell_min_price", vStr "90")])], by decide, by decide, by decide⟩⟩

end Buff
